import Mathlib

/-!
Verification of jupylet's sound engine (`jupylet/sound.py`) against its
natural-language specification.  The Python functions are shallowly embedded
as Lean definitions: machine floats become exact rationals (`ℚ`) or reals
(`ℝ`), numpy arrays become lists, and the mutable `Sample` object becomes a
record with explicit state passing.  Each definition carries a comment
pointing to the source lines it embeds.
-/

namespace Jupylet

/-- Frame rate constant, `FPS = 44100` (sound.py line 62). -/
def FPS : ℕ := 44100

/-- Python `int()` conversion: truncation toward zero. -/
def pyInt (q : ℚ) : ℤ := if 0 ≤ q then ⌊q⌋ else ⌈q⌉

/-- Embeds `t2frames` (sound.py lines 65-74): `return int(FPS * t)`. -/
def t2frames (t : ℚ) : ℤ := pyInt ((FPS : ℚ) * t)

/-- Embeds `frames2t` (sound.py lines 77-86): `return frames / FPS`. -/
def frames2t (frames : ℤ) : ℚ := (frames : ℚ) / (FPS : ℚ)

/-- Embeds the oscilloscope-history update of `_stream_callback`
(sound.py lines 170-174): `if len(_al) * frames > FPS: _al.pop(0)` followed
by `_al.append(a0)`, where `a0` is the chunk of `frames` mixed frames
produced by this callback.  The parallel `_dt` timing list is popped and
appended in lockstep and is not modelled. -/
def _stream_callback_al (a0 : List ℚ) (al : List (List ℚ)) : List (List ℚ) :=
  (if al.length * a0.length > FPS then al.drop 1 else al) ++ [a0]

/-- Total number of audio frames stored across the history buffer `_al`. -/
def al_total_frames (al : List (List ℚ)) : ℕ := (al.map List.length).sum

/-- A run of stream callbacks starting from the empty history, producing the
given chunks in order. -/
def alRun (cs : List (List ℚ)) : List (List ℚ) :=
  cs.foldl (fun al c => _stream_callback_al c al) []

/-- The mutable state of a `Sample` object (sound.py lines 373-431) that is
relevant to play/consume behaviour: the `playing`, `reset` and `_stop` flags,
the playback frame index, and the loaded buffer (modelled mono, one rational
per frame). -/
structure Sample where
  playing : Bool
  reset : Bool
  _stop : Bool
  index : ℕ
  buffer : List ℚ

/-- Embeds `Sample.load` (sound.py lines 554-564) restricted to its state
effect: the decode step `load_sound(self.path, channels)` is served by an
`lru_cache`, so repeated loads return the identical buffer; the method then
clears `reset` and `_stop` and zeroes `index`. -/
def Sample.load (s : Sample) : Sample :=
  { s with reset := false, _stop := false, index := 0 }

/-- Embeds `Sample.play` (sound.py lines 515-537) after its attribute
overrides (modelled separately by `play_kwargs`): it calls `self.load()`,
then, if already playing, sets the `reset` flag and returns itself without
touching the queue `_soundsq`; otherwise it marks itself playing and enqueues
itself.  The queue is modelled as a list of object identifiers. -/
def Sample.play (s : Sample) (q : List ℕ) (id : ℕ) : Sample × List ℕ :=
  let s1 := s.load
  if s1.playing then ({ s1 with reset := true }, q)
  else ({ s1 with playing := true }, q ++ [id])

/-- Embeds `Sample._consume0` (sound.py lines 593-604): consume the `reset`
flag (restarting at index 0), read up to `frames` frames starting at
`index % len(buffer)`, and advance `index` by the number of frames read. -/
def Sample._consume0 (s : Sample) (frames : ℕ) : Sample × List ℚ :=
  let s1 := if s.reset then { s with reset := false, index := 0 } else s
  let ix := s1.index % s1.buffer.length
  let data0 := (s1.buffer.drop ix).take frames
  ({ s1 with index := s1.index + data0.length }, data0)

/-- Embeds the channel-shaping part of `load_sound` (sound.py lines 354-370)
on an already-decoded buffer given as a list of frames (rows), each row one
channel value per native channel.  A mono 1-D decode corresponds to rows of
length 1 (the `reshape(-1, 1)` step).  `np.repeat(channels, -1)` on a
width-1 array replicates each row element `channels` times; `data.shape[-1]`
is read off the first row. -/
def load_sound_expand (data : List (List ℚ)) (channels : ℕ) : List (List ℚ) :=
  if (data.headD []).length = 1 ∧ 1 < channels
  then data.map (fun r => r.flatMap (fun x => List.replicate channels x))
  else data

/-- Second half of the `load_sound` channel shaping (sound.py lines
367-368): `if data.shape[-1] > channels: data = data[:, :channels]`,
composed with the expansion step. -/
def load_sound (data : List (List ℚ)) (channels : ℕ) : List (List ℚ) :=
  let d1 := load_sound_expand data channels
  if channels < (d1.headD []).length
  then d1.map (fun r => r.take channels)
  else d1

/-- Embeds `_ampan` (sound.py lines 639-641):
`np.array([1 - pan, 1 + pan]) * (amp / 2)`, exact-rational model of the
float32 result. -/
def _ampan (amp pan : ℚ) : ℚ × ℚ :=
  ((1 - pan) * (amp / 2), (1 + pan) * (amp / 2))

/-- Lookup in a Python-style attribute dictionary modelled as an association
list (first match wins; a well-formed `__dict__` has unique keys). -/
def pylookup {α : Type} (k : String) : List (String × α) → Option α
  | [] => none
  | p :: t => if p.1 = k then some p.2 else pylookup k t

/-- Python `setattr` on an instance `__dict__`: overwrite the entry if the
key exists, append it otherwise. -/
def dict_set {α : Type} (d : List (String × α)) (k : String) (v : α) :
    List (String × α) :=
  if (pylookup k d).isSome
  then d.map (fun p => if p.1 = k then (p.1, v) else p)
  else d ++ [(k, v)]

/-- Embeds the keyword-override loop of `Sample.play` (sound.py lines
521-523): `for k, v in kwargs.items(): if k in self.__dict__:
setattr(self, k, v)`. -/
def play_kwargs {α : Type} (d : List (String × α))
    (kwargs : List (String × α)) : List (String × α) :=
  kwargs.foldl (fun d p => if (pylookup p.1 d).isSome
    then dict_set d p.1 p.2 else d) d

/-- Embeds `np.linspace(a, b, num)` with the default `endpoint=True`:
`num` evenly spaced samples from `a` to `b` inclusive. -/
def linspace (a b : ℚ) (num : ℕ) : List ℚ :=
  if num = 0 then []
  else if num = 1 then [a]
  else (List.range num).map
    (fun (i : ℕ) => a + (b - a) * ((i : ℚ)) / ((num : ℚ) - 1))

/-- Embeds `_get_triangle_wave` (sound.py lines 689-694):
`a0 = linspace(-1, 1, frames//2)`, `a1 = linspace(1, -1, frames - frames//2)`,
one cycle is `a0 ++ a1`, repeated `cycles` times. -/
def _get_triangle_wave (cycles frames : ℕ) : List ℚ :=
  let a0 := linspace (-1) 1 (frames / 2)
  let a1 := linspace 1 (-1) (frames - frames / 2)
  let a2 := a0 ++ a1
  (List.replicate cycles a2).flatten

/-- Triangle-wave builder as the specification sentence describes it: the
first (rising) ramp gets the extra sample when the frame count is odd, i.e.
rising gets `⌈frames/2⌉` samples and falling gets `⌊frames/2⌋`.  Written
from the spec's words for comparison against `_get_triangle_wave`. -/
def triangle_wave_claimed (cycles frames : ℕ) : List ℚ :=
  (List.replicate cycles
    (linspace (-1) 1 ((frames + 1) / 2) ++ linspace 1 (-1) (frames / 2))).flatten

/-- Python `round()` to an integer: nearest integer, ties to even. -/
def pyRound (q : ℚ) : ℤ :=
  let f := ⌊q⌋
  let r := q - (f : ℚ)
  if r < 1/2 then f
  else if 1/2 < r then f + 1
  else if f % 2 = 0 then f else f + 1

/-- Python `round(q, 4)`: round to 4 decimal places. -/
def pyRound4 (q : ℚ) : ℚ := ((pyRound (q * 10000) : ℚ)) / 10000

/-- One iteration of the candidate loop of `get_freq_cycles` (sound.py lines
756-768), on state `(mr, mc, broke)`: with `fi = f0 * i`, `fr = fi % 1`
folded to `min(fr, 1 - fr)`, update the best score `mr` and best candidate
`mc` when `mr > fr / fi / 0.06`, and record the early `break` once the best
score drops below `0.003` (subsequent iterations are skipped). -/
def gfcStep (f0 : ℚ) (st : ℚ × ℕ × Bool) (i : ℕ) : ℚ × ℕ × Bool :=
  if st.2.2 then st
  else
    let fi := f0 * (i : ℚ)
    let fr0 := fi - (⌊fi⌋ : ℚ)
    let fr := min fr0 (1 - fr0)
    let sc := fr / fi / (6/100)
    if sc < st.1 then (sc, i, decide (sc < 3/1000)) else st

/-- Embeds `get_freq_cycles` (sound.py lines 750-770) with its default
arguments `fps=44100`, `max_cycles=32`: run the candidate loop for
`i = 1..32` from the initial state `mr = 1000, mc = 1`, then return
`(mc, round(f0 * mc), round(mr, 4))`. -/
def get_freq_cycles (f : ℚ) : ℕ × ℤ × ℚ :=
  let f0 := (44100 : ℚ) / f
  let r := (List.range' 1 32).foldl (gfcStep f0) (1000, 1, false)
  (r.2.1, pyRound (f0 * (r.2.1 : ℚ)), pyRound4 r.1)

/-- Embeds the chromatic table `_notes` (sound.py lines 704-717) in its
insertion order, values as integers. -/
def _notes : List (String × ℤ) :=
  [("C", 1), ("Cs", 2), ("Db", 2), ("D", 3), ("Ds", 4), ("Eb", 4),
   ("E", 5), ("F", 6), ("Fs", 7), ("Gb", 7), ("G", 8), ("Gs", 9),
   ("Ab", 9), ("A", 10), ("As", 11), ("Bb", 11), ("B", 12)]

/-- Python `str.rstrip('0')`: drop trailing `'0'` characters. -/
def rstrip0 (s : String) : String :=
  String.mk ((s.data.reverse.dropWhile (fun c => c = '0')).reverse)

/-- Embeds the generated `note` enumeration (sound.py lines 720-727): for
every octave `o` in `range(8)` and chromatic name `k`, the attribute named
`(k + str(o)).rstrip('0')` is set to that same string.  Modelled as an
association list of (attribute name, attribute value). -/
def noteAttrs : List (String × String) :=
  (List.range 8).flatMap (fun o => _notes.map (fun p =>
    (rstrip0 (p.1 ++ toString o), rstrip0 (p.1 ++ toString o))))

/-- Embeds `get_note_key` (sound.py lines 730-739): strip a trailing digit
as the octave (default 4), replace `'#'` with `'s'`, look up the chromatic
table and return `table[name] + octave * 12 + 11`.  A `KeyError` from the
table lookup is modelled as `none`. -/
def get_note_key (s : String) : Option ℤ :=
  let dig : Option Char :=
    match s.data.getLast? with
    | some c => if c.isDigit then some c else none
    | none => none
  let octave : ℤ :=
    match dig with
    | some c => ((c.toNat - 48 : ℕ) : ℤ)
    | none => 4
  let name : List Char :=
    match dig with
    | some _ => s.data.dropLast
    | none => s.data
  let name := name.map (fun c => if c = '#' then 's' else c)
  (pylookup (String.mk name) _notes).map (fun v => v + octave * 12 + 11)

/-- Embeds `get_key_freq` (sound.py lines 746-747):
`a4 * 2 ** ((key - 69) / 12)`.  The Python default `a4=440` is passed
explicitly at use sites. -/
noncomputable def get_key_freq (key : ℤ) (a4 : ℝ) : ℝ :=
  a4 * (2 : ℝ) ^ ((((key : ℝ)) - 69) / 12)

section

attribute [local semireducible] Rat.add Rat.mul Rat.sub Rat.inv

/-- A `linspace` call returns exactly `num` samples. -/
theorem linspace_length (a b : ℚ) (num : ℕ) : (linspace a b num).length = num := by
  unfold linspace
  split_ifs with h0 h1
  · simp [h0]
  · simp [h1]
  · rw [List.length_map, List.length_range]

/-- Claim C1 counterexample: at `t = 1/49000` (so `t × 44100 = 0.9`),
`t2frames` returns `0`, not the nearest integer `1`; the conversion
truncates rather than rounds. -/
theorem claim_C1_counterexample :
    ¬ t2frames (1/49000) = round ((44100 : ℚ) * (1/49000)) := by
  decide

/-- Claim C1 (amended): for every non-negative time `t`, `t2frames t` is the
truncation `⌊t × 44100⌋` of `t × 44100` (Python `int()`, which is a floor for
non-negative values), not the nearest integer; and for every integer frame
count `n`, `frames2t n = n / 44100`. -/
theorem claim_C1 :
    (∀ t : ℚ, 0 ≤ t → t2frames t = ⌊(44100 : ℚ) * t⌋)
    ∧ (∀ n : ℤ, frames2t n = (n : ℚ) / 44100) := by
  constructor
  · intro t ht
    have h : (0 : ℚ) ≤ (FPS : ℚ) * t := by
      have h0 : (0 : ℚ) ≤ (FPS : ℚ) := by norm_num [FPS]
      exact mul_nonneg h0 ht
    unfold t2frames pyInt
    rw [if_pos h]
    norm_num [FPS]
  · intro n
    unfold frames2t
    norm_num [FPS]

/-- Claim C1 witness: the amended statement instantiated at `t = 1/49000`. -/
theorem claim_C1_witness :
    ((0 : ℚ) ≤ 1/49000) ∧ t2frames (1/49000) = ⌊(44100 : ℚ) * (1/49000)⌋ :=
  ⟨by norm_num, claim_C1.1 (1/49000) (by norm_num)⟩

/-- Claim C4: `get_note_key "A4" = 69`, `get_key_freq 69 = 440` (at the
default tuning reference `a4 = 440`), and `get_note_key "C4" = 60`. -/
theorem claim_C4 :
    get_note_key "A4" = some 69
    ∧ get_key_freq 69 440 = 440
    ∧ get_note_key "C4" = some 60 := by
  refine ⟨by decide, ?_, by decide⟩
  have h : ((((69 : ℤ) : ℝ)) - 69) / 12 = 0 := by norm_num
  rw [get_key_freq, h, Real.rpow_zero, mul_one]

/-- Claim C6 counterexample: for one cycle of 3 frames, the generated
triangle wave is `[-1, 1, -1]` (rising ramp 1 sample, falling ramp 2
samples), not the claimed shape `[-1, 1, 1]` in which the rising ramp would
receive the extra sample. -/
theorem claim_C6_counterexample :
    _get_triangle_wave 1 3 ≠ triangle_wave_claimed 1 3 := by
  decide

/-- Claim C6 (amended): for every cycle count `c ≥ 1` and odd frame count
`n`, each triangle cycle is a rising ramp `-1 → 1` followed by a falling
ramp `1 → -1`, where the falling (second) ramp receives the extra sample:
the rising ramp has `⌊n/2⌋` samples and the falling ramp `⌈n/2⌉ = (n+1)/2`
samples. -/
theorem claim_C6 (c n : ℕ) (hc : 1 ≤ c) (hn : n % 2 = 1) :
    _get_triangle_wave c n =
      (List.replicate c
        (linspace (-1) 1 (n / 2) ++ linspace 1 (-1) ((n + 1) / 2))).flatten
    ∧ (linspace (-1 : ℚ) 1 (n / 2)).length = n / 2
    ∧ (linspace (1 : ℚ) (-1) ((n + 1) / 2)).length = (n + 1) / 2 := by
  refine ⟨?_, linspace_length _ _ _, linspace_length _ _ _⟩
  unfold _get_triangle_wave
  have h : n - n / 2 = (n + 1) / 2 := by omega
  rw [h]

/-- Claim C6 witness: the amended statement instantiated at one cycle of 3
frames. -/
theorem claim_C6_witness :
    _get_triangle_wave 1 3 =
      (List.replicate 1
        (linspace (-1) 1 (3 / 2) ++ linspace 1 (-1) ((3 + 1) / 2))).flatten
    ∧ (linspace (-1 : ℚ) 1 (3 / 2)).length = 3 / 2
    ∧ (linspace (1 : ℚ) (-1) ((3 + 1) / 2)).length = (3 + 1) / 2 :=
  claim_C6 1 3 (by decide) (by decide)

/-- Claim C10: for every amplitude and pan, the two per-channel gains of
`_ampan` sum exactly to the amplitude, so total stereo gain is independent
of pan. -/
theorem claim_C10 (amp pan : ℚ) :
    (_ampan amp pan).1 + (_ampan amp pan).2 = amp := by
  unfold _ampan
  ring

/-- Claim C2: calling `play` on an already-playing sample leaves the
currently-playing queue unchanged (no second enqueue), sets the `reset`
flag on the returned sample, and the next `_consume0` on that sample clears
the flag and reads from buffer index 0 (its output is a prefix of the
buffer and the index afterwards equals the number of frames read). -/
theorem claim_C2 (s : Sample) (q : List ℕ) (id frames : ℕ)
    (h : s.playing = true) :
    (Sample.play s q id).2 = q
    ∧ (Sample.play s q id).1.playing = true
    ∧ (Sample.play s q id).1.reset = true
    ∧ (Sample._consume0 (Sample.play s q id).1 frames).1.reset = false
    ∧ (Sample._consume0 (Sample.play s q id).1 frames).2
        = (Sample.play s q id).1.buffer.take frames
    ∧ (Sample._consume0 (Sample.play s q id).1 frames).1.index
        = ((Sample.play s q id).1.buffer.take frames).length := by
  unfold Sample.play Sample.load Sample._consume0
  simp [h]

/-- Claim C2 witness: the statement instantiated at a concrete playing
sample with buffer `[1, 2, 3]`, an empty queue and a 2-frame read. -/
theorem claim_C2_witness :
    (Sample.play ⟨true, false, false, 5, [1, 2, 3]⟩ [] 0).2 = []
    ∧ (Sample.play ⟨true, false, false, 5, [1, 2, 3]⟩ [] 0).1.playing = true
    ∧ (Sample.play ⟨true, false, false, 5, [1, 2, 3]⟩ [] 0).1.reset = true
    ∧ (Sample._consume0 (Sample.play ⟨true, false, false, 5, [1, 2, 3]⟩ [] 0).1 2).1.reset
        = false
    ∧ (Sample._consume0 (Sample.play ⟨true, false, false, 5, [1, 2, 3]⟩ [] 0).1 2).2
        = (Sample.play ⟨true, false, false, 5, [1, 2, 3]⟩ [] 0).1.buffer.take 2
    ∧ (Sample._consume0 (Sample.play ⟨true, false, false, 5, [1, 2, 3]⟩ [] 0).1 2).1.index
        = ((Sample.play ⟨true, false, false, 5, [1, 2, 3]⟩ [] 0).1.buffer.take 2).length :=
  claim_C2 ⟨true, false, false, 5, [1, 2, 3]⟩ [] 0 2 rfl

/-- A list of chunks of equal length `f` holds `length * f` frames. -/
theorem sum_lengths_const (l : List (List ℚ)) (f : ℕ)
    (h : ∀ x ∈ l, x.length = f) : (l.map List.length).sum = l.length * f := by
  induction l with
  | nil => simp
  | cons c t ih =>
    simp only [List.map_cons, List.sum_cons, List.length_cons]
    rw [h c (List.mem_cons_self c t), ih (fun x hx => h x (List.mem_cons_of_mem c hx))]
    ring

/-- One stream callback preserves the history invariant: all chunks have
length `f` and the pre-append length bound `(len - 1) * f ≤ FPS` holds. -/
theorem alStep_inv (c : List ℚ) (al : List (List ℚ)) (f : ℕ)
    (hc : c.length = f) (hal : ∀ x ∈ al, x.length = f)
    (hlen : (al.length - 1) * f ≤ FPS) :
    (∀ x ∈ _stream_callback_al c al, x.length = f)
    ∧ ((_stream_callback_al c al).length - 1) * f ≤ FPS := by
  unfold _stream_callback_al
  constructor
  · intro x hx
    rcases List.mem_append.mp hx with h1 | h2
    · split at h1
      · exact hal x (List.mem_of_mem_drop h1)
      · exact hal x h1
    · rw [List.mem_singleton.mp h2]
      exact hc
  · by_cases hcond : al.length * c.length > FPS
    · rw [if_pos hcond]
      rw [List.length_append, List.length_drop]
      have hfin : al.length - 1 + [c].length - 1 = al.length - 1 := by
        simp
      rw [hfin]
      exact hlen
    · rw [if_neg hcond]
      rw [List.length_append]
      have h2 : al.length * f ≤ FPS := by
        rw [← hc]
        exact not_lt.mp hcond
      have hfin : al.length + [c].length - 1 = al.length := by
        simp
      rw [hfin]
      exact h2

/-- The history invariant holds after any sequence of callbacks producing
equal-sized chunks. -/
theorem alRun_inv (cs : List (List ℚ)) (f : ℕ) :
    ∀ al : List (List ℚ), (∀ x ∈ cs, x.length = f) → (∀ x ∈ al, x.length = f) →
    (al.length - 1) * f ≤ FPS →
    (∀ x ∈ cs.foldl (fun a x => _stream_callback_al x a) al, x.length = f)
    ∧ ((cs.foldl (fun a x => _stream_callback_al x a) al).length - 1) * f ≤ FPS := by
  induction cs with
  | nil => exact fun al _ hal hlen => ⟨hal, hlen⟩
  | cons c t ih =>
    intro al hcs hal hlen
    rw [List.foldl_cons]
    obtain ⟨h1, h2⟩ := alStep_inv c al f (hcs c (List.mem_cons_self c t)) hal hlen
    exact ih _ (fun x hx => hcs x (List.mem_cons_of_mem c hx)) h1 h2

set_option maxRecDepth 8000 in
/-- Claim C3 counterexample: with a constant driver chunk size of 1024
frames, after 44 callbacks the history `_al` holds `44 × 1024 = 45056`
frames, exceeding the claimed 44100-frame cap (the pop happens before the
append, using the pre-append length). -/
theorem claim_C3_counterexample :
    ¬ al_total_frames (alRun (List.replicate 44 (List.replicate 1024 (0 : ℚ)))) ≤ 44100 := by
  decide

/-- Claim C3 (amended): for a fixed per-callback chunk size `f ≥ 1`, after
every stream-callback invocation the total number of frames stored in `_al`
is at most `44100 + f` (one chunk above one second); the stated `44100`
bound itself can be exceeded. -/
theorem claim_C3 (cs : List (List ℚ)) (f : ℕ) (hf : 1 ≤ f)
    (hcs : ∀ x ∈ cs, x.length = f) :
    al_total_frames (alRun cs) ≤ FPS + f := by
  obtain ⟨h1, h2⟩ := alRun_inv cs f [] hcs (by intro x hx; cases hx) (by simp)

  unfold al_total_frames alRun
  rw [sum_lengths_const _ f h1]
  have h3 : (cs.foldl (fun a x => _stream_callback_al x a) []).length * f
      ≤ ((cs.foldl (fun a x => _stream_callback_al x a) []).length - 1) * f + f := by
    have h4 : (cs.foldl (fun a x => _stream_callback_al x a) []).length
        ≤ (cs.foldl (fun a x => _stream_callback_al x a) []).length - 1 + 1 := by
      omega
    calc (cs.foldl (fun a x => _stream_callback_al x a) []).length * f
        ≤ ((cs.foldl (fun a x => _stream_callback_al x a) []).length - 1 + 1) * f :=
          Nat.mul_le_mul_right f h4
      _ = ((cs.foldl (fun a x => _stream_callback_al x a) []).length - 1) * f + f := by
          ring
  exact h3.trans (Nat.add_le_add_right h2 f)

/-- Claim C3 witness: the amended bound instantiated at a single callback
of 1024 frames. -/
theorem claim_C3_witness :
    al_total_frames (alRun [List.replicate 1024 (0 : ℚ)]) ≤ FPS + 1024 :=
  claim_C3 [List.replicate 1024 (0 : ℚ)] 1024 (by decide)
    (by intro x hx; rw [List.mem_singleton.mp hx]; exact List.length_replicate 1024 0)

/-- Claim C7 counterexample: a decoded buffer with 2 native channels
requested at 3 channels keeps its 2 channels — `load_sound` only
replicates when the file is mono, so the result does not have exactly the
requested channel count. -/
theorem claim_C7_counterexample :
    ¬ ∀ r ∈ load_sound [[(1 : ℚ), 2]] 3, r.length = 3 := by
  decide

/-- Claim C7 (amended): for a decoded buffer of uniform native channel
count `k ≥ 1` and requested count `c ≥ 1`, `load_sound` replicates only in
the mono case (`k = 1`, filling to `c` channels), truncates to the first
`c` channels when `k > c`, and otherwise returns the buffer unchanged; so
every returned frame has `c` channels when `k = 1`, and `min k c` channels
otherwise (in particular a buffer with `1 < k < c` keeps `k` channels,
not `c`). -/
theorem claim_C7 (data : List (List ℚ)) (k c : ℕ) (hne : data ≠ [])
    (hw : ∀ r ∈ data, r.length = k) (hk : 1 ≤ k) (hc : 1 ≤ c) :
    load_sound data c =
      (if k = 1 ∧ 1 < c
       then data.map (fun r => r.flatMap (fun x => List.replicate c x))
       else if c < k then data.map (fun r => r.take c) else data)
    ∧ (∀ r ∈ load_sound data c, r.length = if k = 1 then c else min k c) := by
  obtain ⟨r0, rest, rfl⟩ : ∃ r0 rest, data = r0 :: rest := by
    cases data with
    | nil => exact absurd rfl hne
    | cons a t => exact ⟨a, t, rfl⟩
  have hr0 : r0.length = k := hw r0 (List.mem_cons_self _ _)
  have hhead : (((r0 :: rest).headD []).length) = k := by simpa using hr0
  by_cases h1 : k = 1 ∧ 1 < c
  · have hexp : load_sound_expand (r0 :: rest) c
        = (r0 :: rest).map (fun r => r.flatMap (fun x => List.replicate c x)) := by
      unfold load_sound_expand
      rw [if_pos ⟨by rw [hhead, h1.1], h1.2⟩]
    have hlen1 : ∀ r ∈ (r0 :: rest),
        (r.flatMap (fun x => List.replicate c x)).length = c := by
      intro r hr
      have hl : r.length = 1 := by rw [hw r hr, h1.1]
      rcases List.length_eq_one.mp hl with ⟨x, rfl⟩
      simp
    have hhead2 : ((((r0 :: rest).map
        (fun r => r.flatMap (fun x => List.replicate c x))).headD []).length) = c := by
      simp only [List.map_cons, List.headD_cons]
      exact hlen1 r0 (List.mem_cons_self _ _)
    unfold load_sound
    rw [hexp, if_neg (by rw [hhead2]; exact lt_irrefl c)]
    constructor
    · rw [if_pos h1]
    · intro r hr
      rw [if_pos h1.1]
      obtain ⟨r', hr', rfl⟩ := List.mem_map.mp hr
      exact hlen1 r' hr'
  · have hexp : load_sound_expand (r0 :: rest) c = r0 :: rest := by
      unfold load_sound_expand
      rw [if_neg]
      intro hcontra
      exact h1 ⟨hhead.symm.trans hcontra.1, hcontra.2⟩
    unfold load_sound
    rw [hexp]
    by_cases h2 : c < k
    · rw [if_pos (by rw [hhead]; exact h2)]
      have hk1 : k ≠ 1 := by
        intro hk1
        rw [hk1] at h2
        omega
      constructor
      · rw [if_neg h1, if_pos h2]
      · intro r hr
        obtain ⟨r', hr', rfl⟩ := List.mem_map.mp hr
        rw [List.length_take, hw r' hr', if_neg hk1]
        omega
    · rw [if_neg (by rw [hhead]; exact h2)]
      constructor
      · rw [if_neg h1, if_neg h2]
      · intro r hr
        rw [hw r hr]
        by_cases hk1 : k = 1
        · rw [if_pos hk1]
          have hc1 : c = 1 := by
            rcases not_and_or.mp h1 with h | h
            · exact absurd hk1 h
            · omega
          omega
        · rw [if_neg hk1]
          omega

/-- Claim C7 witness: the amended statement instantiated at a 1-frame
2-channel buffer requested at 3 channels (the result keeps 2 channels). -/
theorem claim_C7_witness :
    load_sound [[(1 : ℚ), 2]] 3 =
      (if 2 = 1 ∧ 1 < 3
       then [[(1 : ℚ), 2]].map (fun r => r.flatMap (fun x => List.replicate 3 x))
       else if 3 < 2 then [[(1 : ℚ), 2]].map (fun r => r.take 3) else [[(1 : ℚ), 2]])
    ∧ (∀ r ∈ load_sound [[(1 : ℚ), 2]] 3, r.length = if 2 = 1 then 3 else min 2 3) :=
  claim_C7 [[1, 2]] 2 3 (by decide) (by decide) (by decide) (by decide)

set_option maxRecDepth 4000 in
/-- Claim C5 counterexample: `get_freq_cycles 440` returns
`(mc, fc, b) = (9, 902, 0.0008)`, and `|fc/mc − 44100/440| = 1/198 ≈
0.00505` exceeds `0.06 × b × (44100/440) ≈ 0.00481`: the bound stated with
the returned badness (rounded to 4 decimals) does not hold. -/
theorem claim_C5_counterexample :
    ¬ |((get_freq_cycles 440).2.1 : ℚ) / ((get_freq_cycles 440).1 : ℚ) - 44100 / 440|
        ≤ (6/100) * (get_freq_cycles 440).2.2 * (44100 / 440) := by
  decide

set_option maxRecDepth 4000 in
/-- Claim C5 (amended): `get_freq_cycles 440 = (9, 902, 0.0008)`; the cycle
count lies in `[1, 32]`, the frame count is `round((44100/440) × mc)`, and
`fc/mc` differs from `44100/440` by at most
`0.06 × (b + 0.00005) × (44100/440)` — the returned badness must be
widened by its 4-decimal rounding slack `0.00005` for the bound to hold
(with the exact pre-rounding score the bound is an equality). -/
theorem claim_C5 :
    get_freq_cycles 440 = (9, 902, 1/1250)
    ∧ 1 ≤ (get_freq_cycles 440).1 ∧ (get_freq_cycles 440).1 ≤ 32
    ∧ (get_freq_cycles 440).2.1
        = pyRound ((44100 / 440 : ℚ) * (((get_freq_cycles 440).1 : ℕ) : ℚ))
    ∧ |((get_freq_cycles 440).2.1 : ℚ) / ((get_freq_cycles 440).1 : ℚ) - 44100 / 440|
        ≤ (6/100) * ((get_freq_cycles 440).2.2 + 1/20000) * (44100 / 440) := by
  decide

/-- Overwriting an existing key inside an attribute map leaves the first
occurrence holding the new value. -/
theorem pylookup_map_set_self {α : Type} (d : List (String × α)) (k : String)
    (v : α) (h : (pylookup k d).isSome) :
    pylookup k (d.map (fun p => if p.1 = k then (p.1, v) else p)) = some v := by
  induction d with
  | nil => simp [pylookup] at h
  | cons p t ih =>
    by_cases hp : p.1 = k
    · simp [pylookup, hp]
    · have hh : (if p.1 = k then (p.1, v) else p) = p := if_neg hp
      simp only [List.map_cons, hh, pylookup, if_neg hp]
      apply ih
      simpa [pylookup, hp] using h

/-- Appending a fresh key to an attribute map makes it found afterwards. -/
theorem pylookup_append_self {α : Type} (d : List (String × α)) (k : String)
    (v : α) (h : pylookup k d = none) :
    pylookup k (d ++ [(k, v)]) = some v := by
  induction d with
  | nil => simp [pylookup]
  | cons p t ih =>
    by_cases hp : p.1 = k
    · rw [pylookup, if_pos hp] at h
      cases h
    · rw [List.cons_append, pylookup, if_neg hp]
      apply ih
      rwa [pylookup, if_neg hp] at h

/-- A `dict_set` makes its key map to its value. -/
theorem pylookup_dict_set_self {α : Type} (d : List (String × α)) (k : String)
    (v : α) : pylookup k (dict_set d k v) = some v := by
  unfold dict_set
  by_cases h : (pylookup k d).isSome
  · rw [if_pos h]
    exact pylookup_map_set_self d k v h
  · rw [if_neg h]
    apply pylookup_append_self
    cases hcase : pylookup k d with
    | none => rfl
    | some w => rw [hcase] at h; simp at h

/-- Overwriting a key does not change lookups of other keys. -/
theorem pylookup_map_set_ne {α : Type} (d : List (String × α)) (k k' : String)
    (v : α) (h : k' ≠ k) :
    pylookup k' (d.map (fun p => if p.1 = k then (p.1, v) else p))
      = pylookup k' d := by
  induction d with
  | nil => rfl
  | cons p t ih =>
    by_cases hp : p.1 = k
    · simp only [List.map_cons, if_pos hp, pylookup]
      rw [if_neg (by rw [hp]; exact fun hh => h hh.symm), if_neg (by rw [hp]; exact fun hh => h hh.symm), ih]
    · simp only [List.map_cons, if_neg hp, pylookup]
      by_cases hp' : p.1 = k'
      · rw [if_pos hp', if_pos hp']
      · rw [if_neg hp', if_neg hp', ih]

/-- Appending a fresh key does not change lookups of other keys. -/
theorem pylookup_append_ne {α : Type} (d : List (String × α)) (k k' : String)
    (v : α) (h : k' ≠ k) :
    pylookup k' (d ++ [(k, v)]) = pylookup k' d := by
  induction d with
  | nil =>
    show pylookup k' [(k, v)] = none
    rw [pylookup, if_neg (fun hh => h hh.symm)]
    rfl
  | cons p t ih =>
    by_cases hp : p.1 = k'
    · rw [List.cons_append, pylookup, if_pos hp, pylookup, if_pos hp]
    · rw [List.cons_append, pylookup, if_neg hp, pylookup, if_neg hp, ih]

/-- A `dict_set` on a different key does not change a lookup. -/
theorem pylookup_dict_set_ne {α : Type} (d : List (String × α)) (k k' : String)
    (v : α) (h : k' ≠ k) :
    pylookup k' (dict_set d k v) = pylookup k' d := by
  unfold dict_set
  split
  · exact pylookup_map_set_ne d k k' v h
  · exact pylookup_append_ne d k k' v h

/-- Overwriting a key preserves the key list of an attribute map. -/
theorem map_set_keys {α : Type} (d : List (String × α)) (k : String) (v : α) :
    (d.map (fun p => if p.1 = k then (p.1, v) else p)).map Prod.fst
      = d.map Prod.fst := by
  induction d with
  | nil => rfl
  | cons p t ih =>
    simp only [List.map_cons]
    congr 1
    by_cases hp : p.1 = k
    · rw [if_pos hp]
    · rw [if_neg hp]

/-- A `dict_set` on an existing key preserves the key list. -/
theorem dict_set_keys {α : Type} (d : List (String × α)) (k : String) (v : α)
    (h : (pylookup k d).isSome) :
    (dict_set d k v).map Prod.fst = d.map Prod.fst := by
  unfold dict_set
  rw [if_pos h]
  exact map_set_keys d k v

/-- The override loop of `play` never changes the set of attribute names. -/
theorem play_kwargs_keys {α : Type} (kwargs : List (String × α)) :
    ∀ d : List (String × α),
      (play_kwargs d kwargs).map Prod.fst = d.map Prod.fst := by
  induction kwargs with
  | nil => intro d; rfl
  | cons p t ih =>
    intro d
    unfold play_kwargs
    rw [List.foldl_cons]
    show (play_kwargs
      (if (pylookup p.1 d).isSome then dict_set d p.1 p.2 else d) t).map Prod.fst
      = d.map Prod.fst
    rw [ih]
    split
    · rename_i h
      exact dict_set_keys d p.1 p.2 h
    · rfl

/-- The override loop does not change a key that no override names. -/
theorem play_kwargs_lookup_of_not_key {α : Type} (kwargs : List (String × α)) :
    ∀ (d : List (String × α)) (k : String), (∀ p ∈ kwargs, p.1 ≠ k) →
      pylookup k (play_kwargs d kwargs) = pylookup k d := by
  induction kwargs with
  | nil => intro d k _; rfl
  | cons p t ih =>
    intro d k hne
    unfold play_kwargs
    rw [List.foldl_cons]
    show pylookup k (play_kwargs
      (if (pylookup p.1 d).isSome then dict_set d p.1 p.2 else d) t) = pylookup k d
    rw [ih _ k (fun x hx => hne x (List.mem_cons_of_mem p hx))]
    split
    · exact pylookup_dict_set_ne d p.1 k p.2
        (fun hh => hne p (List.mem_cons_self p t) hh.symm)
    · rfl

/-- A lookup fails exactly when the key is absent from the key list. -/
theorem pylookup_eq_none_iff {α : Type} (d : List (String × α)) (k : String) :
    pylookup k d = none ↔ k ∉ d.map Prod.fst := by
  induction d with
  | nil => simp [pylookup]
  | cons p t ih =>
    simp only [List.map_cons, List.mem_cons]
    by_cases hp : p.1 = k
    · rw [pylookup, if_pos hp]
      constructor
      · intro h; cases h
      · intro h
        exact absurd (Or.inl hp.symm) h
    · rw [pylookup, if_neg hp, ih]
      constructor
      · intro h hor
        rcases hor with h1 | h2
        · exact hp h1.symm
        · exact h h2
      · intro h hmem
        exact h (Or.inr hmem)

/-- An override naming an existing attribute is assigned by the loop. -/
theorem play_kwargs_assign {α : Type} (kwargs : List (String × α)) :
    ∀ (d : List (String × α)) (k : String) (v : α),
      (kwargs.map Prod.fst).Nodup → (k, v) ∈ kwargs → (pylookup k d).isSome →
      pylookup k (play_kwargs d kwargs) = some v := by
  induction kwargs with
  | nil =>
    intro d k v _ hmem
    cases hmem
  | cons p t ih =>
    intro d k v hnd hmem hex
    unfold play_kwargs
    rw [List.foldl_cons]
    show pylookup k (play_kwargs
      (if (pylookup p.1 d).isSome then dict_set d p.1 p.2 else d) t) = some v
    have hnd1 : p.1 ∉ t.map Prod.fst ∧ (t.map Prod.fst).Nodup := by
      simp only [List.map_cons] at hnd
      exact List.nodup_cons.mp hnd
    rcases List.mem_cons.mp hmem with heq | hmemt
    · obtain rfl : p = (k, v) := heq.symm
      rw [if_pos hex]
      have hkeys : ∀ x ∈ t, x.1 ≠ k := by
        intro x hx hxk
        apply hnd1.1
        show k ∈ t.map Prod.fst
        rw [← hxk]
        exact List.mem_map_of_mem Prod.fst hx
      rw [play_kwargs_lookup_of_not_key t _ k hkeys]
      exact pylookup_dict_set_self d k v
    · have hpk : p.1 ≠ k := by
        intro hh
        have hk_in : k ∈ t.map Prod.fst := List.mem_map_of_mem Prod.fst hmemt
        rw [← hh] at hk_in
        exact hnd1.1 hk_in
      apply ih _ k v hnd1.2 hmemt
      split
      · rw [pylookup_dict_set_ne d p.1 k p.2 (Ne.symm hpk)]
        exact hex
      · exact hex

/-- Claim C8: in the `Sample.play` override loop, an override whose name is
not an existing instance attribute is silently ignored — the loop is total
(no exception), the attribute name set is unchanged, and no attribute of
that name is created — while an override naming an existing attribute is
assigned before playback starts.  (The declared `note` parameter is a
separate named parameter of `play`, not a `**kwargs` override.) -/
theorem claim_C8 {α : Type} (d kwargs : List (String × α)) (k : String) (v : α)
    (hnd : (kwargs.map Prod.fst).Nodup) :
    ((play_kwargs d kwargs).map Prod.fst = d.map Prod.fst)
    ∧ (pylookup k d = none → pylookup k (play_kwargs d kwargs) = none)
    ∧ ((pylookup k d).isSome → (k, v) ∈ kwargs →
        pylookup k (play_kwargs d kwargs) = some v) := by
  refine ⟨play_kwargs_keys kwargs d, ?_,
    fun hex hmem => play_kwargs_assign kwargs d k v hnd hmem hex⟩
  intro hnone
  rw [pylookup_eq_none_iff] at hnone ⊢
  rw [play_kwargs_keys kwargs d]
  exact hnone

/-- Claim C8 witness: the statement instantiated at an instance dictionary
`{amp: 1}` with overrides `{amp: 2, bogus: 7}` and the unknown name
`"bogus"`. -/
theorem claim_C8_witness :
    ((play_kwargs [("amp", (1 : ℤ))] [("amp", 2), ("bogus", 7)]).map Prod.fst
        = [("amp", (1 : ℤ))].map Prod.fst)
    ∧ (pylookup "bogus" [("amp", (1 : ℤ))] = none →
        pylookup "bogus" (play_kwargs [("amp", (1 : ℤ))] [("amp", 2), ("bogus", 7)])
          = none)
    ∧ ((pylookup "bogus" [("amp", (1 : ℤ))]).isSome →
        ("bogus", (7 : ℤ)) ∈ [("amp", (2 : ℤ)), ("bogus", 7)] →
        pylookup "bogus" (play_kwargs [("amp", (1 : ℤ))] [("amp", 2), ("bogus", 7)])
          = some 7) :=
  claim_C8 [("amp", 1)] [("amp", 2), ("bogus", 7)] "bogus" 7 (by decide)

set_option maxRecDepth 4000 in
/-- Claim C9: for every chromatic name in the note table, the generated
`note` enumeration has an octave-0 attribute equal to the bare name with
the `0` digit stripped (e.g. `note.C == "C"`), and `get_note_key` on that
bare name applies the default octave 4, returning `table[name] + 59` — the
octave-4 key, not the octave-0 key `table[name] + 11`. -/
theorem claim_C9 : ∀ p ∈ _notes,
    pylookup p.1 noteAttrs = some p.1
    ∧ get_note_key p.1 = some (p.2 + 59)
    ∧ p.2 + 59 ≠ p.2 + 11 := by
  decide

/-- Claim C9 witness: the statement instantiated at the table entry
`("C", 1)`. -/
theorem claim_C9_witness :
    (("C", (1 : ℤ)) ∈ _notes)
    ∧ (pylookup "C" noteAttrs = some "C"
       ∧ get_note_key "C" = some (1 + 59)
       ∧ ((1 : ℤ) + 59 ≠ 1 + 11)) :=
  ⟨by decide, claim_C9 ("C", 1) (by decide)⟩

end

end Jupylet
